import Mathlib

/-
Verification development for the reverse-polish calculator core of the repository
(files src/polka.cpp and src/unnamed/part_001 .. part_004).

The canonical model below follows the part_002 implementation (the variant
shared with polka.cpp): the `Statement` hierarchy becomes the inductive
type `Op`, the virtual `apply` becomes `Op.apply`, the declared
arguments/results/pure fields become `Op.argumentsCount`, `Op.resultsCount`
and `Op.is_pure`, and `compile`/`optimize` are translated from
src/unnamed/part_002 lines 130-192.

Divergent sibling variants kept in the repository are embedded separately
where a claim is about them: the part_003 variant's declared arities and
underflow behaviour (`p3Arity`, `p3Pure`, `p3BinApply`, `p3AbsApply`,
`p3DupApply`), the part_004 variant's evaluator (`p4Apply`, which runs the
right child of a Combine first), and polka.cpp's `optimize`
(`optimizePolka`, lines 395-410 of src/polka.cpp).

Modelling conventions:
- C++ `int` is modelled as `Int` reduced into the signed 32-bit range with
  `wrap32` wherever the C++ computation can leave that range (signed
  overflow wraps, matching the behaviour the repository's own overflow
  test asserts).
- The stack `std::vector<int>` is a `List Int` whose HEAD is the vector's
  BACK (the top of the stack); pushing is consing.
- `std::cin` is modelled as a `List Int` of pending values threaded
  through `Op.apply`; a read from an exhausted stream yields 0 (C++11
  failed extraction writes 0).
- Undefined behaviour (popping an empty vector, division by zero) is made
  explicit with `Except EvalErr`: `.underflow` for popping/reading past
  the end of the stack, `.arith` for division or modulus by zero.
- A null `std::shared_ptr<Statement>` result of `compile` is `none`; the
  `std::out_of_range` exception thrown by `std::stoi` is `Except.error`.
-/

namespace Polka

/-- Reduce an integer into the signed 32-bit range, the value a wrapping
C++ `int` computation produces. -/
def wrap32 (n : Int) : Int := (n + 2 ^ 31) % 2 ^ 32 - 2 ^ 31

/-- The five `BinaryOP` instantiations of the source:
`std::plus`, `std::minus`, `std::multiplies`, `std::divides`, `std::modulus`. -/
inductive BinKind
  | add
  | sub
  | mul
  | div
  | mod
deriving DecidableEq, Repr

/-- Computes `func(a, b)` of a `BinaryOP<func>` on C++ `int`s: wrapping 32-bit
arithmetic, truncating division/modulus, `none` on division by zero
(undefined behaviour in the source). -/
def binFn : BinKind → Int → Int → Option Int
  | .add, a, b => some (wrap32 (a + b))
  | .sub, a, b => some (wrap32 (a - b))
  | .mul, a, b => some (wrap32 (a * b))
  | .div, a, b => if b = 0 then none else some (wrap32 (Int.tdiv a b))
  | .mod, a, b => if b = 0 then none else some (wrap32 (Int.tmod a b))

/-- The `Statement` IR: one constructor per concrete subclass of the
source (`ConstOp`, `BinaryOP`, `Abs`, `Input`, `Dup`, `BlankStr`,
`Combine`). -/
inductive Op
  | const (v : Int)
  | bin (k : BinKind)
  | abs
  | input
  | dup
  | blank
  | seq (l r : Op)
deriving DecidableEq, Repr

/-- The declared `(arguments, results)` pair of a statement, as set by the
constructors of part_002 / polka.cpp.  For `Combine`,
`calculateArgumentsCount` is `l.args + max(int(r.args) - int(l.results), 0)`
and `calculateResultsCount` is `r.results + max(int(l.results) - int(r.args), 0)`
(part_002 lines 33-39); over `Nat`, `max(x - y, 0)` is truncated
subtraction. -/
def Op.arity : Op → Nat × Nat
  | .const _ => (0, 1)
  | .bin _ => (2, 1)
  | .abs => (1, 1)
  | .input => (0, 1)
  | .dup => (1, 2)
  | .blank => (0, 0)
  | .seq l r =>
      (l.arity.1 + (r.arity.1 - l.arity.2),
       r.arity.2 + (l.arity.2 - r.arity.1))

/-- Declared `get_arguments_count()`. -/
def Op.argumentsCount (op : Op) : Nat := op.arity.1

/-- Declared `get_results_count()`. -/
def Op.resultsCount (op : Op) : Nat := op.arity.2

/-- Declared `is_pure()`: every statement of part_002 / polka.cpp declares
`pure = true` except `Input`; `Combine` declares `l.pure && r.pure`. -/
def Op.is_pure : Op → Bool
  | .input => false
  | .seq l r => l.is_pure && r.is_pure
  | _ => true

/-- Discriminates the `Combine` node (the `dynamic_cast<Combine*>` of the
source). -/
def Op.isSeq : Op → Bool
  | .seq _ _ => true
  | _ => false

/-- Evaluation errors: `.underflow` models the undefined behaviour of
popping or reading the back of an empty `std::vector`, `.arith` the
undefined behaviour of integer division/modulus by zero. -/
inductive EvalErr
  | underflow
  | arith
deriving DecidableEq, Repr

/-- The virtual `apply` of part_002 / polka.cpp, threading the stack and
the pending standard input.  The head of the stack list is the back of
the C++ vector.  `Combine::apply` is `r->apply(l->apply(in))`
(part_002 lines 21-23). -/
def Op.apply : Op → List Int → List Int → Except EvalErr (List Int × List Int)
  | .const v, s, inp => .ok (v :: s, inp)
  | .bin k, b :: a :: rest, inp =>
      match binFn k a b with
      | some r => .ok (r :: rest, inp)
      | none => .error .arith
  | .bin _, _, _ => .error .underflow
  | .abs, b :: rest, inp => .ok (wrap32 |b| :: rest, inp)
  | .abs, [], _ => .error .underflow
  | .input, s, inp => .ok (inp.headD 0 :: s, inp.tail)
  | .dup, a :: rest, inp => .ok (a :: a :: rest, inp)
  | .dup, [], _ => .error .underflow
  | .blank, s, inp => .ok (s, inp)
  | .seq l r, s, inp =>
      match l.apply s inp with
      | .ok (s2, inp2) => r.apply s2 inp2
      | .error e => .error e

/-- The stack component of an evaluation outcome (drops the input-stream
component, keeps the error). -/
def stripStack (e : Except EvalErr (List Int × List Int)) :
    Except EvalErr (List Int) :=
  e.map Prod.fst

/-- The `optimize` of part_002 (lines 130-150): recurse into `Combine` nodes;
if the optimized right child needs more arguments than the optimized left
child produces, return the ORIGINAL node; if both optimized children are
`ConstOp`, replace them by a `ConstOp` holding
`right->apply(left->apply({})).back()`, which for constants `a` then `b`
is `b`; otherwise recombine the optimized children. -/
def optimize : Op → Op
  | .seq l r =>
      if (optimize r).argumentsCount > (optimize l).resultsCount then
        .seq l r
      else
        match optimize l, optimize r with
        | .const _, .const b => .const b
        | lo, ro => .seq lo ro
  | op => op

/-- The `optimize` of polka.cpp (lines 395-410): no argument guard, and the
fold of two `ConstOp`s pushes `left + right` (int addition, hence
`wrap32`). -/
def optimizePolka : Op → Op
  | .seq l r =>
      match optimizePolka l, optimizePolka r with
      | .const a, .const b => .const (wrap32 (a + b))
      | lo, ro => .seq lo ro
  | op => op

/-- Whitespace in the sense of the tokenizing regex `\S+` of part_002:
the characters the default C locale treats as whitespace. -/
def isWsp (c : Char) : Bool :=
  c = ' ' || c = '\t' || c = '\n' || c = '\x0d' || c = '\x0b' || c = '\x0c'

/-- Splits the character stream into the maximal runs of non-whitespace
characters the token regex `\S+` yields; `acc` holds the current token
reversed. -/
def tokenizeAux : List Char → List Char → List (List Char)
  | [], [] => []
  | [], acc => [acc.reverse]
  | c :: cs, acc =>
      if isWsp c then
        match acc with
        | [] => tokenizeAux cs []
        | _ => acc.reverse :: tokenizeAux cs []
      else tokenizeAux cs (c :: acc)

/-- All tokens of the source text, in order. -/
def tokenize (cs : List Char) : List (List Char) := tokenizeAux cs []

/-- Value of a nonempty all-digit run, read left to right (the digit loop
of `std::stoi`); `none` if the run is empty or holds a non-digit. -/
def digitsValAux : List Char → Nat → Option Nat
  | [], acc => some acc
  | c :: cs, acc =>
      if c.isDigit then digitsValAux cs (acc * 10 + (c.toNat - 48)) else none

/-- Here `digitsVal cs` is the numeric value of `cs` when `cs` is one or more
digits, `none` otherwise. -/
def digitsVal : List Char → Option Nat
  | [] => none
  | c :: cs => digitsValAux (c :: cs) 0

/-- Full-token match against the number regex `[-+]?\d+` together with the
(mathematical) value `std::stoi` would parse. -/
def numParse : List Char → Option Int
  | '-' :: cs => (digitsVal cs).map fun n => -(n : Int)
  | '+' :: cs => (digitsVal cs).map fun n => (n : Int)
  | cs => (digitsVal cs).map fun n => (n : Int)

/-- The `operator_mapping` table of part_002 (lines 158-167). -/
def opLookup : List Char → Option Op
  | ['+'] => some (.bin .add)
  | ['-'] => some (.bin .sub)
  | ['/'] => some (.bin .div)
  | ['*'] => some (.bin .mul)
  | ['%'] => some (.bin .mod)
  | ['a', 'b', 's'] => some .abs
  | ['i', 'n', 'p', 'u', 't'] => some .input
  | ['d', 'u', 'p'] => some .dup
  | _ => none

/-- Smallest C++ `int`. -/
def INT_MIN : Int := -(2 ^ 31)

/-- Largest C++ `int`. -/
def INT_MAX : Int := 2 ^ 31 - 1

/-- Classify one token as the compile loop of part_002 does: a token
matching the number regex becomes a `ConstOp` via `std::stoi` (which
throws `std::out_of_range`, modelled `Except.error`, outside the `int`
range); otherwise a successful `operator_mapping` lookup yields that
operator, and an unrecognized token yields nothing. -/
def classify (t : List Char) : Except Unit (Option Op) :=
  match numParse t with
  | some n => if n < INT_MIN ∨ INT_MAX < n then .error () else .ok (some (.const n))
  | none => .ok (opLookup t)

/-- The token loop of part_002's `compile`: `ret` starts null (`none`) and
each recognized token is composed onto it with `operator|`
(`Combine`). -/
def compileTokens : List (List Char) → Option Op → Except Unit (Option Op)
  | [], acc => .ok acc
  | t :: ts, acc =>
      match classify t with
      | .error e => .error e
      | .ok none => compileTokens ts acc
      | .ok (some op) =>
          compileTokens ts
            (some (match acc with
              | none => op
              | some a => .seq a op))

/-- The `compile` of part_002 (lines 153-192): empty input or input made only
of `' '` yields `BlankStr`; otherwise the token loop runs and the result
(possibly a null pointer, `none`) is passed through `optimize`. -/
def compile (s : String) : Except Unit (Option Op) :=
  if s.data.all (fun c => c == ' ') then .ok (some .blank)
  else (compileTokens (tokenize s.data) none).map (Option.map optimize)

/-- The Sequence argument count written the way the specification words
it: `max(l.arguments, r.arguments - l.results)` over integers.  Declared
for comparison with the implementation's `Op.argumentsCount`. -/
def specSeqArguments (l r : Op) : Int :=
  max (l.argumentsCount : Int) ((r.argumentsCount : Int) - (l.resultsCount : Int))

/-- Declared `(arguments, results)` of the part_003 variant
(src/unnamed/part_003): `Abs` declares `(0, 1)` (line 77) and `Combine`
computes `max(l_args, r_args - l_results)` and
`l_results + r_results - min(l_results, r_args)` over `int`
(lines 18-26). -/
def p3Arity : Op → Int × Int
  | .const _ => (0, 1)
  | .bin _ => (2, 1)
  | .abs => (0, 1)
  | .input => (0, 1)
  | .dup => (1, 2)
  | .blank => (0, 0)
  | .seq l r =>
      (max (p3Arity l).1 ((p3Arity r).1 - (p3Arity l).2),
       (p3Arity l).2 + (p3Arity r).2 - min (p3Arity l).2 (p3Arity r).1)

/-- part_003 declared `get_arguments_count()`. -/
def p3Args (op : Op) : Int := (p3Arity op).1

/-- part_003 declared `get_results_count()`. -/
def p3Res (op : Op) : Int := (p3Arity op).2

/-- part_003 declared `is_pure()`: every class of part_003 passes
`pure = true`, including `Input` (line 90); `Combine` declares
`l.pure && r.pure`. -/
def p3Pure : Op → Bool
  | .seq l r => p3Pure l && p3Pure r
  | _ => true

/-- The `BinaryOP::apply` of part_003 (lines 61-72): a stack with fewer than
two elements is returned unchanged; otherwise pop `b`, pop `a`, push
`func(a, b)`. -/
def p3BinApply (k : BinKind) : List Int → Except EvalErr (List Int)
  | b :: a :: rest =>
      match binFn k a b with
      | some r => .ok (r :: rest)
      | none => .error .arith
  | v => .ok v

/-- The `Abs::apply` of part_003 (lines 79-84): unguarded `back`/`pop_back`,
undefined behaviour on an empty stack. -/
def p3AbsApply : List Int → Except EvalErr (List Int)
  | [] => .error .underflow
  | b :: rest => .ok (wrap32 |b| :: rest)

/-- The `Dup::apply` of part_003 (lines 104-108): unguarded `back`, undefined
behaviour on an empty stack. -/
def p3DupApply : List Int → Except EvalErr (List Int)
  | [] => .error .underflow
  | a :: rest => .ok (a :: a :: rest)

/-- The evaluator of the part_004 variant (src/unnamed/part_004).  Its
primitives behave as the canonical ones, but `Combine::apply` is
`l->apply(r->apply(v))` (lines 50-52): the RIGHT child runs first. -/
def p4Apply : Op → List Int → List Int → Except EvalErr (List Int × List Int)
  | .const v, s, inp => .ok (v :: s, inp)
  | .bin k, b :: a :: rest, inp =>
      match binFn k a b with
      | some r => .ok (r :: rest, inp)
      | none => .error .arith
  | .bin _, _, _ => .error .underflow
  | .abs, b :: rest, inp => .ok (wrap32 |b| :: rest, inp)
  | .abs, [], _ => .error .underflow
  | .input, s, inp => .ok (inp.headD 0 :: s, inp.tail)
  | .dup, a :: rest, inp => .ok (a :: a :: rest, inp)
  | .dup, [], _ => .error .underflow
  | .blank, s, inp => .ok (s, inp)
  | .seq l r, s, inp =>
      match p4Apply r s inp with
      | .ok (s2, inp2) => p4Apply l s2 inp2
      | .error e => .error e

/-! Arity unfolding lemmas (all definitional). -/

@[simp] theorem argumentsCount_const (v : Int) : (Op.const v).argumentsCount = 0 := rfl

@[simp] theorem argumentsCount_bin (k : BinKind) : (Op.bin k).argumentsCount = 2 := rfl

@[simp] theorem argumentsCount_abs : Op.abs.argumentsCount = 1 := rfl

@[simp] theorem argumentsCount_input : Op.input.argumentsCount = 0 := rfl

@[simp] theorem argumentsCount_dup : Op.dup.argumentsCount = 1 := rfl

@[simp] theorem argumentsCount_blank : Op.blank.argumentsCount = 0 := rfl

@[simp] theorem argumentsCount_seq (l r : Op) :
    (Op.seq l r).argumentsCount = l.argumentsCount + (r.argumentsCount - l.resultsCount) := rfl

@[simp] theorem resultsCount_const (v : Int) : (Op.const v).resultsCount = 1 := rfl

@[simp] theorem resultsCount_bin (k : BinKind) : (Op.bin k).resultsCount = 1 := rfl

@[simp] theorem resultsCount_abs : Op.abs.resultsCount = 1 := rfl

@[simp] theorem resultsCount_input : Op.input.resultsCount = 1 := rfl

@[simp] theorem resultsCount_dup : Op.dup.resultsCount = 2 := rfl

@[simp] theorem resultsCount_blank : Op.blank.resultsCount = 0 := rfl

@[simp] theorem resultsCount_seq (l r : Op) :
    (Op.seq l r).resultsCount = r.resultsCount + (l.resultsCount - r.argumentsCount) := rfl

/-- Every value a `BinaryOP` can produce lies in the signed 32-bit range. -/
theorem wrap32_range (n : Int) : INT_MIN ≤ wrap32 n ∧ wrap32 n ≤ INT_MAX := by
  unfold wrap32 INT_MIN INT_MAX
  have h1 : (0 : Int) ≤ (n + 2 ^ 31) % 2 ^ 32 := Int.emod_nonneg _ (by norm_num)
  have h2 : (n + 2 ^ 31) % 2 ^ 32 < 2 ^ 32 := Int.emod_lt_of_pos _ (by norm_num)
  omega

/-- A successful evaluation changes the stack depth by exactly the
declared net effect `results - arguments`. -/
theorem apply_length : ∀ (op : Op) (s inp s2 inp2 : List Int),
    op.apply s inp = .ok (s2, inp2) →
    (s2.length : Int) = s.length - op.argumentsCount + op.resultsCount := by
  intro op
  induction op with
  | const v =>
      intro s inp s2 inp2 h
      simp only [Op.apply, Except.ok.injEq, Prod.mk.injEq] at h
      obtain ⟨h1, _⟩ := h
      subst h1
      simp
  | bin k =>
      intro s inp s2 inp2 h
      rcases s with _ | ⟨b, _ | ⟨a, rest⟩⟩
      · simp [Op.apply] at h
      · simp [Op.apply] at h
      · rcases hb : binFn k a b with _ | r
        · simp [Op.apply, hb] at h
        · simp only [Op.apply, hb, Except.ok.injEq, Prod.mk.injEq] at h
          obtain ⟨h1, _⟩ := h
          subst h1
          simp
          omega
  | abs =>
      intro s inp s2 inp2 h
      rcases s with _ | ⟨b, rest⟩
      · simp [Op.apply] at h
      · simp only [Op.apply, Except.ok.injEq, Prod.mk.injEq] at h
        obtain ⟨h1, _⟩ := h
        subst h1
        simp
  | input =>
      intro s inp s2 inp2 h
      simp only [Op.apply, Except.ok.injEq, Prod.mk.injEq] at h
      obtain ⟨h1, _⟩ := h
      subst h1
      simp
  | dup =>
      intro s inp s2 inp2 h
      rcases s with _ | ⟨a, rest⟩
      · simp [Op.apply] at h
      · simp only [Op.apply, Except.ok.injEq, Prod.mk.injEq] at h
        obtain ⟨h1, _⟩ := h
        subst h1
        simp
        omega
  | blank =>
      intro s inp s2 inp2 h
      simp only [Op.apply, Except.ok.injEq, Prod.mk.injEq] at h
      obtain ⟨h1, _⟩ := h
      subst h1
      simp
  | seq l r ihl ihr =>
      intro s inp s2 inp2 h
      simp only [Op.apply] at h
      rcases hl : l.apply s inp with e | ⟨s1, inp1⟩
      · rw [hl] at h
        simp at h
      · rw [hl] at h
        simp only [] at h
        have h1 := ihl s inp s1 inp1 hl
        have h2 := ihr s1 inp1 s2 inp2 h
        simp only [argumentsCount_seq, resultsCount_seq]
        omega

/-- A stack at least as deep as the declared argument count never
underflows. -/
theorem no_underflow : ∀ (op : Op) (s inp : List Int),
    op.argumentsCount ≤ s.length → op.apply s inp ≠ .error .underflow := by
  intro op
  induction op with
  | const v => intro s inp _ h; simp [Op.apply] at h
  | bin k =>
      intro s inp hle h
      rcases s with _ | ⟨b, _ | ⟨a, rest⟩⟩
      · simp at hle
      · simp at hle
      · rcases hb : binFn k a b with _ | r <;> simp [Op.apply, hb] at h
  | abs =>
      intro s inp hle h
      rcases s with _ | ⟨b, rest⟩
      · simp at hle
      · simp [Op.apply] at h
  | input => intro s inp _ h; simp [Op.apply] at h
  | dup =>
      intro s inp hle h
      rcases s with _ | ⟨a, rest⟩
      · simp at hle
      · simp [Op.apply] at h
  | blank => intro s inp _ h; simp [Op.apply] at h
  | seq l r ihl ihr =>
      intro s inp hle h
      simp only [argumentsCount_seq] at hle
      have hargs : l.argumentsCount ≤ s.length := by omega
      simp only [Op.apply] at h
      rcases hl : l.apply s inp with e | ⟨s1, inp1⟩
      · rw [hl] at h
        simp only [] at h
        cases h
        exact ihl s inp hargs hl
      · rw [hl] at h
        simp only [] at h
        have hlen := apply_length l s inp s1 inp1 hl
        have hr : r.argumentsCount ≤ s1.length := by omega
        exact ihr s1 inp1 hr h

/-- The token loop leaves `ret` null only if it started null and no token
was recognized. -/
theorem compileTokens_ok_none : ∀ (ts : List (List Char)) (acc : Option Op),
    compileTokens ts acc = .ok none →
    acc = none ∧ ∀ t ∈ ts, classify t = .ok none := by
  intro ts
  induction ts with
  | nil =>
      intro acc h
      simp only [compileTokens, Except.ok.injEq] at h
      exact ⟨h, by simp⟩
  | cons t ts ih =>
      intro acc h
      simp only [compileTokens] at h
      rcases hc : classify t with e | o
      · rw [hc] at h
        simp at h
      · rcases o with _ | op
        · rw [hc] at h
          simp only [] at h
          obtain ⟨ha, hts⟩ := ih acc h
          refine ⟨ha, ?_⟩
          intro u hu
          rcases List.mem_cons.mp hu with rfl | hm
          · exact hc
          · exact hts u hm
        · rw [hc] at h
          simp only [] at h
          have := (ih _ h).1
          simp at this

/-- Classification raises exactly on a token matching the number grammar
whose value lies outside the 32-bit `int` range (the `std::out_of_range`
of `std::stoi`). -/
theorem classify_error_iff (t : List Char) :
    classify t = .error () ↔
      ∃ n, numParse t = some n ∧ (n < INT_MIN ∨ INT_MAX < n) := by
  rcases hn : numParse t with _ | n
  · simp only [classify, hn]
    simp
  · simp only [classify, hn]
    by_cases hc : n < INT_MIN ∨ INT_MAX < n
    · simp [hc]
    · simp [hc]

/-- The token loop raises exactly when some token classifies to an
error. -/
theorem compileTokens_error_iff : ∀ (ts : List (List Char)) (acc : Option Op),
    compileTokens ts acc = .error () ↔ ∃ t ∈ ts, classify t = .error () := by
  intro ts
  induction ts with
  | nil => intro acc; simp [compileTokens]
  | cons t ts ih =>
      intro acc
      simp only [compileTokens]
      rcases hc : classify t with e | o
      · cases e
        simp only [hc]
        exact ⟨fun _ => ⟨t, List.mem_cons_self t ts, hc⟩, fun _ => trivial⟩
      · rcases o with _ | op
        · simp only [hc]
          rw [ih acc]
          constructor
          · rintro ⟨u, hu, hcu⟩
            exact ⟨u, List.mem_cons_of_mem _ hu, hcu⟩
          · rintro ⟨u, hu, hcu⟩
            rcases List.mem_cons.mp hu with rfl | hm
            · rw [hc] at hcu
              exact absurd hcu (by simp)
            · exact ⟨u, hm, hcu⟩
        · simp only [hc]
          rw [ih _]
          constructor
          · rintro ⟨u, hu, hcu⟩
            exact ⟨u, List.mem_cons_of_mem _ hu, hcu⟩
          · rintro ⟨u, hu, hcu⟩
            rcases List.mem_cons.mp hu with rfl | hm
            · rw [hc] at hcu
              exact absurd hcu (by simp)
            · exact ⟨u, hm, hcu⟩

/-- When every token is unrecognized the token loop returns the null
statement it started from. -/
theorem compileTokens_all_unrecognized : ∀ (ts : List (List Char)),
    (∀ t ∈ ts, classify t = .ok none) → compileTokens ts none = .ok none := by
  intro ts
  induction ts with
  | nil => intro _; rfl
  | cons t ts ih =>
      intro h
      have hc := h t (List.mem_cons_self t ts)
      simp only [compileTokens, hc]
      exact ih fun u hu => h u (List.mem_cons_of_mem _ hu)

/-- A pure statement never consumes from the input stream: a successful
evaluation returns the stream untouched. -/
theorem pure_inp : ∀ (op : Op), op.is_pure = true →
    ∀ (s inp s2 inp2 : List Int), op.apply s inp = .ok (s2, inp2) → inp2 = inp := by
  intro op
  induction op with
  | const v =>
      intro _ s inp s2 inp2 h
      simp only [Op.apply, Except.ok.injEq, Prod.mk.injEq] at h
      exact h.2.symm
  | bin k =>
      intro _ s inp s2 inp2 h
      rcases s with _ | ⟨b, _ | ⟨a, rest⟩⟩
      · simp [Op.apply] at h
      · simp [Op.apply] at h
      · rcases hb : binFn k a b with _ | r
        · simp [Op.apply, hb] at h
        · simp only [Op.apply, hb, Except.ok.injEq, Prod.mk.injEq] at h
          exact h.2.symm
  | abs =>
      intro _ s inp s2 inp2 h
      rcases s with _ | ⟨b, rest⟩
      · simp [Op.apply] at h
      · simp only [Op.apply, Except.ok.injEq, Prod.mk.injEq] at h
        exact h.2.symm
  | input => intro hp; simp [Op.is_pure] at hp
  | dup =>
      intro _ s inp s2 inp2 h
      rcases s with _ | ⟨a, rest⟩
      · simp [Op.apply] at h
      · simp only [Op.apply, Except.ok.injEq, Prod.mk.injEq] at h
        exact h.2.symm
  | blank =>
      intro _ s inp s2 inp2 h
      simp only [Op.apply, Except.ok.injEq, Prod.mk.injEq] at h
      exact h.2.symm
  | seq l r ihl ihr =>
      intro hp s inp s2 inp2 h
      simp only [Op.is_pure, Bool.and_eq_true] at hp
      obtain ⟨hpl, hpr⟩ := hp
      simp only [Op.apply] at h
      rcases hl : l.apply s inp with e | ⟨s1, inp1⟩
      · rw [hl] at h
        simp at h
      · rw [hl] at h
        simp only [] at h
        have e1 := ihl hpl s inp s1 inp1 hl
        have e2 := ihr hpr s1 inp1 s2 inp2 h
        rw [e2, e1]

/-- The stack outcome of a pure statement does not depend on the input
stream. -/
theorem pure_stack : ∀ (op : Op), op.is_pure = true →
    ∀ (s inp inp2 : List Int),
    stripStack (op.apply s inp) = stripStack (op.apply s inp2) := by
  intro op
  induction op with
  | const v => intro _ s inp inp2; rfl
  | bin k =>
      intro _ s inp inp2
      rcases s with _ | ⟨b, _ | ⟨a, rest⟩⟩
      · rfl
      · rfl
      · rcases hb : binFn k a b with _ | r <;> simp [Op.apply, hb, stripStack, Except.map]
  | abs =>
      intro _ s inp inp2
      rcases s with _ | ⟨b, rest⟩ <;> rfl
  | input => intro hp; simp [Op.is_pure] at hp
  | dup =>
      intro _ s inp inp2
      rcases s with _ | ⟨a, rest⟩ <;> rfl
  | blank => intro _ s inp inp2; rfl
  | seq l r ihl ihr =>
      intro hp s inp inp2
      simp only [Op.is_pure, Bool.and_eq_true] at hp
      obtain ⟨hpl, hpr⟩ := hp
      have hs := ihl hpl s inp inp2
      simp only [Op.apply]
      rcases hl1 : l.apply s inp with e1 | ⟨s1, i1⟩ <;>
        rcases hl2 : l.apply s inp2 with e2 | ⟨t1, j1⟩ <;>
          rw [hl1, hl2] at hs <;> simp only [stripStack, Except.map] at hs
      · cases hs
        rfl
      · cases hs
      · cases hs
      · cases hs
        exact ihr hpr s1 i1 j1

/-- C1: evaluation of the optimizer at the failing input
`op = Sequence(Literal 1, Literal 2)`, `s = []`.  Applying `op` pushes 1
then 2 (list head is the top of the stack), but part_002's `optimize`
folds the pair to `Literal 2` and polka.cpp's `optimize` folds it to
`Literal 3`, so `apply(optimize(op), s)` differs from `apply(op, s)`:
the constant folding DOES change the observable result. -/
theorem c1_optimize_changes_result :
    Op.apply (Op.seq (Op.const 1) (Op.const 2)) [] [] = .ok ([2, 1], [])
    ∧ Op.apply (optimize (Op.seq (Op.const 1) (Op.const 2))) [] [] = .ok ([2], [])
    ∧ Op.apply (optimizePolka (Op.seq (Op.const 1) (Op.const 2))) [] [] = .ok ([3], []) :=
  ⟨rfl, rfl, rfl⟩

/-- C2 counterexample: `compile` does not return a valid Operation for
every input.  A nonempty input whose only token is unrecognized yields
the null statement (`none`), not `Identity`, and an integer literal
outside the `int` range makes `std::stoi` throw (`Except.error`). -/
theorem c2_counterexample :
    compile "foo" = .ok none ∧ compile "99999999999" = .error () :=
  ⟨rfl, rfl⟩

/-- C2 (amended): every input that is empty or made only of space
characters (the only whitespace the blank check of `compile` tests)
compiles to the Identity operation `BlankStr` with arguments=0,
results=0, pure=true, whose apply leaves every stack and input stream
unchanged.  The result is the null statement rather than Identity exactly
when the input is not space-only and every one of its tokens is
unrecognized, and `compile` raises exactly when the input is not
space-only and holds a number token whose value lies outside the 32-bit
`int` range — in particular it never raises when every integer literal
fits. -/
theorem c2_compile_amended :
    (∀ (str : String), str.data.all (fun c => c == ' ') = true →
        compile str = .ok (some Op.blank))
    ∧ Op.blank.argumentsCount = 0
    ∧ Op.blank.resultsCount = 0
    ∧ Op.blank.is_pure = true
    ∧ (∀ (s inp : List Int), Op.blank.apply s inp = .ok (s, inp))
    ∧ (∀ (str : String), compile str = .ok none ↔
        (str.data.all (fun c => c == ' ') = false
          ∧ ∀ t ∈ tokenize str.data, classify t = .ok none))
    ∧ (∀ (str : String), compile str = .error () ↔
        (str.data.all (fun c => c == ' ') = false
          ∧ ∃ t ∈ tokenize str.data,
              ∃ n, numParse t = some n ∧ (n < INT_MIN ∨ INT_MAX < n))) := by
  refine ⟨?_, rfl, rfl, rfl, fun s inp => rfl, ?_, ?_⟩
  · intro str h
    unfold compile
    rw [if_pos h]
  · intro str
    unfold compile
    by_cases hsp : str.data.all (fun c => c == ' ') = true
    · rw [if_pos hsp]
      constructor
      · intro h
        exact absurd h (by simp)
      · rintro ⟨hf, _⟩
        rw [hsp] at hf
        cases hf
    · rw [if_neg hsp]
      simp only [Bool.not_eq_true] at hsp
      constructor
      · intro h
        refine ⟨hsp, ?_⟩
        rcases hct : compileTokens (tokenize str.data) none with e | o
        · rw [hct] at h
          simp [Except.map] at h
        · rw [hct] at h
          simp only [Except.map, Except.ok.injEq] at h
          have ho : o = none := Option.map_eq_none'.mp h
          rw [ho] at hct
          exact (compileTokens_ok_none _ _ hct).2
      · rintro ⟨_, hall⟩
        rw [compileTokens_all_unrecognized _ hall]
        rfl
  · intro str
    unfold compile
    by_cases hsp : str.data.all (fun c => c == ' ') = true
    · rw [if_pos hsp]
      constructor
      · intro h
        exact absurd h (by simp)
      · rintro ⟨hf, _⟩
        rw [hsp] at hf
        cases hf
    · rw [if_neg hsp]
      simp only [Bool.not_eq_true] at hsp
      constructor
      · intro h
        refine ⟨hsp, ?_⟩
        rcases hct : compileTokens (tokenize str.data) none with e | o
        · cases e
          rcases (compileTokens_error_iff _ none).mp hct with ⟨t, ht, hcl⟩
          rcases (classify_error_iff t).mp hcl with ⟨n, hn, hr⟩
          exact ⟨t, ht, n, hn, hr⟩
        · rw [hct] at h
          simp [Except.map] at h
      · rintro ⟨_, t, ht, n, hn, hr⟩
        have hcl : classify t = .error () := (classify_error_iff t).mpr ⟨n, hn, hr⟩
        have hct : compileTokens (tokenize str.data) none = .error () :=
          (compileTokens_error_iff _ none).mpr ⟨t, ht, hcl⟩
        rw [hct]
        rfl

/-- C2 witness: the amended theorem applied at concrete inputs — the
space-only input compiles to Identity whose apply preserves the stack
`[3]` and stream `[7]`; the all-unrecognized input `"foo"` yields the
null statement by the backward direction of the null characterization;
and the out-of-range literal raises by the backward direction of the
error characterization. -/
theorem c2_witness :
    compile "  " = .ok (some Op.blank)
    ∧ Op.blank.apply [3] [7] = .ok ([3], [7])
    ∧ compile "foo" = .ok none
    ∧ compile "99999999999" = .error () :=
  ⟨c2_compile_amended.1 "  " (by decide),
   c2_compile_amended.2.2.2.2.1 [3] [7],
   (c2_compile_amended.2.2.2.2.2.1 "foo").mpr
     ⟨by decide, by
       intro t ht
       have e : tokenize (String.data "foo") = [['f', 'o', 'o']] := rfl
       rw [e] at ht
       rcases List.mem_singleton.mp ht with rfl
       rfl⟩,
   (c2_compile_amended.2.2.2.2.2.2 "99999999999").mpr
     ⟨by decide,
      ['9', '9', '9', '9', '9', '9', '9', '9', '9', '9', '9'], by decide,
      99999999999, by decide, by decide⟩⟩

/-- C3 counterexample: for `l = r = BinaryArithmetic(add)` the Sequence of
part_002 / polka.cpp declares 3 arguments, while the claimed formula
`max(l.arguments, r.arguments - l.results)` gives 2. -/
theorem c3_counterexample :
    (Op.seq (Op.bin .add) (Op.bin .add)).argumentsCount = 3
    ∧ specSeqArguments (Op.bin .add) (Op.bin .add) = 2 := by
  refine ⟨rfl, ?_⟩
  simp [specSeqArguments]

/-- C3 (amended): the Sequence of part_002 / polka.cpp declares
`arguments = l.arguments + max(r.arguments - l.results, 0)` (truncated
subtraction over naturals), so `compile("+ +")` declares 3 arguments, and
this declared count is sufficient: applying any operation to a stack at
least that deep never underflows. -/
theorem c3_sequence_arguments_amended :
    (∀ l r : Op,
      (Op.seq l r).argumentsCount = l.argumentsCount + (r.argumentsCount - l.resultsCount))
    ∧ compile "+ +" = .ok (some (Op.seq (Op.bin .add) (Op.bin .add)))
    ∧ (Op.seq (Op.bin .add) (Op.bin .add)).argumentsCount = 3
    ∧ (∀ (op : Op) (s inp : List Int), op.argumentsCount ≤ s.length →
        op.apply s inp ≠ .error .underflow) :=
  ⟨fun _ _ => rfl, rfl, rfl, no_underflow⟩

/-- C3 witness: the argument formula at `Sequence(Literal 0, Identity)`
and underflow-freedom of `Abs` on the one-element stack `[5]`. -/
theorem c3_witness :
    (Op.seq (Op.const 0) Op.blank).argumentsCount
      = (Op.const 0).argumentsCount + (Op.blank.argumentsCount - (Op.const 0).resultsCount)
    ∧ Op.abs.apply [5] [] ≠ .error .underflow :=
  ⟨c3_sequence_arguments_amended.1 (Op.const 0) Op.blank,
   c3_sequence_arguments_amended.2.2.2 Op.abs [5] [] (by decide)⟩

/-- C4: evaluation at the failing input of the part_004 variant.  Its
`Combine::apply` is `l->apply(r->apply(v))`, so for the IR of `"1 +"`
applied to the stack `{0}` the right child `+` runs first and underflows,
while the canonical left-first evaluator (part_002/part_003/polka.cpp)
returns `{1}` — the value part_004's own assert
`inc->apply({0}) == std::vector{1}` expects. -/
theorem c4_part004_reversed_apply :
    p4Apply (Op.seq (Op.const 1) (Op.bin .add)) [0] [] = .error .underflow
    ∧ Op.apply (Op.seq (Op.const 1) (Op.bin .add)) [0] [] = .ok ([1], []) :=
  ⟨rfl, rfl⟩

/-- C5: the part_003 variant contradicts the variant table at the failing
inputs `compile("abs")` and `compile("input")`: its `Abs` declares
arguments=0 (though it pops one element) and its `Input` declares
pure=true (though it reads stdin), while the canonical part_002/polka.cpp
classes declare arguments=1 for `Abs` and pure=false for `Input` as the
claim states. -/
theorem c5_part003_arity_divergence :
    p3Args Op.abs = 0
    ∧ p3Pure Op.input = true
    ∧ Op.abs.argumentsCount = 1
    ∧ Op.input.is_pure = false
    ∧ compile "abs" = .ok (some Op.abs)
    ∧ compile "input" = .ok (some Op.input) :=
  ⟨rfl, rfl, rfl, rfl, rfl, rfl⟩

/-- C6 counterexample: when the guard fires, `optimize` does NOT return a
Sequence of the recursively optimized children.  For
`Sequence(Sequence(Literal 1, Literal 2), BinaryArithmetic(add))` the
optimized right child needs 2 arguments but the optimized left child
(folded to `Literal 2`) supplies 1 result, and the code returns the
original node — whose left child is still the unoptimized
`Sequence(Literal 1, Literal 2)` — not
`Sequence(Literal 2, BinaryArithmetic(add))`. -/
theorem c6_counterexample :
    optimize (Op.seq (Op.seq (Op.const 1) (Op.const 2)) (Op.bin .add))
      ≠ Op.seq (optimize (Op.seq (Op.const 1) (Op.const 2))) (optimize (Op.bin .add)) := by
  decide

/-- C6 (amended): whenever the optimized right child of a Sequence needs
more arguments than the optimized left child produces, `optimize` returns
the ORIGINAL Sequence node unchanged (children not replaced by their
optimized versions), and no fold is performed. -/
theorem c6_guard_returns_original :
    ∀ l r : Op,
      (optimize r).argumentsCount > (optimize l).resultsCount →
      optimize (Op.seq l r) = Op.seq l r := by
  intro l r h
  unfold optimize
  rw [if_pos h]

/-- C6 witness: the guard at `Sequence(Literal 1, BinaryArithmetic(add))`,
where the right child needs 2 arguments and the left child supplies 1. -/
theorem c6_witness :
    optimize (Op.seq (Op.const 1) (Op.bin .add)) = Op.seq (Op.const 1) (Op.bin .add) :=
  c6_guard_returns_original (Op.const 1) (Op.bin .add) (by decide)

/-- C7 counterexample: the part_003 evaluator mixes underflow policies.
On an empty stack `BinaryOP::apply` silently returns the stack unchanged
while `Abs::apply` and `Dup::apply` read the back of an empty vector
(undefined behaviour, modelled as an underflow error) — neither "every
operation fails" nor "every operation no-ops" holds. -/
theorem c7_counterexample :
    p3BinApply BinKind.add [] = .ok []
    ∧ p3AbsApply [] = .error .underflow
    ∧ p3DupApply [] = .error .underflow :=
  ⟨rfl, rfl, rfl⟩

/-- C7 (amended): there is no single uniform underflow policy.  In the
part_003 variant `BinaryOP` returns any stack of fewer than two elements
unchanged while `Abs` and `Dup` fail on an empty stack; in the canonical
part_002/polka.cpp variant every non-Sequence operation applied to a
stack shallower than its declared arguments fails uniformly. -/
theorem c7_underflow_policy_amended :
    (∀ (k : BinKind) (v : List Int), v.length < 2 → p3BinApply k v = .ok v)
    ∧ p3AbsApply [] = .error .underflow
    ∧ p3DupApply [] = .error .underflow
    ∧ (∀ (op : Op) (s inp : List Int), op.isSeq = false →
        s.length < op.argumentsCount → op.apply s inp = .error .underflow) := by
  refine ⟨?_, rfl, rfl, ?_⟩
  · intro k v hv
    rcases v with _ | ⟨x, _ | ⟨y, t⟩⟩
    · rfl
    · rfl
    · simp at hv
      omega
  · intro op s inp hseq hlt
    cases op with
    | const v => simp at hlt
    | bin k =>
        rcases s with _ | ⟨b, _ | ⟨a, rest⟩⟩
        · rfl
        · rfl
        · simp at hlt
          omega
    | abs =>
        rcases s with _ | ⟨b, rest⟩
        · rfl
        · simp at hlt
    | input => simp at hlt
    | dup =>
        rcases s with _ | ⟨a, rest⟩
        · rfl
        · simp at hlt
    | blank => simp at hlt
    | seq l r => simp [Op.isSeq] at hseq

/-- C7 witness: the two policies observed on the one-element stack `[7]`:
part_003's multiply no-ops, the canonical multiply underflows. -/
theorem c7_witness :
    p3BinApply BinKind.mul [7] = .ok [7]
    ∧ Op.apply (Op.bin BinKind.mul) [7] [] = .error .underflow :=
  ⟨c7_underflow_policy_amended.1 BinKind.mul [7] (by decide),
   c7_underflow_policy_amended.2.2.2 (Op.bin BinKind.mul) [7] [] rfl (by decide)⟩

/-- C8 counterexample: in the part_003 variant `Input` declares
`is_pure() = true`, yet applying it to the same (empty) stack with
different pending standard input produces different result stacks — a
pure-flagged operation whose output does not depend only on the input
stack. -/
theorem c8_counterexample :
    p3Pure Op.input = true
    ∧ stripStack (Op.apply Op.input [] [5]) = .ok [5]
    ∧ stripStack (Op.apply Op.input [] [7]) = .ok [7]
    ∧ (Except.ok [5] : Except EvalErr (List Int)) ≠ .ok [7] := by
  refine ⟨rfl, rfl, rfl, ?_⟩
  intro h
  simp at h

/-- C8 (amended): in the part_002/polka.cpp variant, where `Input`
declares pure=false, every operation with `is_pure() = true` is
deterministic and depends only on its input stack: its stack outcome is
the same for any two pending input streams, and a successful application
leaves the input stream untouched. -/
theorem c8_pure_deterministic :
    ∀ (op : Op), op.is_pure = true → ∀ (s inp inp2 : List Int),
      stripStack (op.apply s inp) = stripStack (op.apply s inp2)
      ∧ ∀ (s2 inp3 : List Int), op.apply s inp = .ok (s2, inp3) → inp3 = inp :=
  fun op hp s inp inp2 =>
    ⟨pure_stack op hp s inp inp2, fun s2 inp3 h => pure_inp op hp s inp s2 inp3 h⟩

/-- C8 witness: determinism of the pure `Literal 5` across the pending
inputs `[1]` and `[2]`, and preservation of the stream `[1]`. -/
theorem c8_witness :
    stripStack (Op.apply (Op.const 5) [] [1]) = stripStack (Op.apply (Op.const 5) [] [2])
    ∧ ([1] : List Int) = [1] :=
  ⟨(c8_pure_deterministic (Op.const 5) rfl [] [1] [2]).1,
   (c8_pure_deterministic (Op.const 5) rfl [] [1] [2]).2 [5] [1] rfl⟩

/-- C9: binary arithmetic wraps around in signed 32 bits.
`compile("2147483647 1 +")` builds (and `optimize` preserves) the IR of
the overflow test, applying it to the empty stack yields
`[-2147483648]`, and every `BinaryOP` result lies in the signed 32-bit
range — never a failure, never a wider value. -/
theorem c9_overflow_wraparound :
    compile "2147483647 1 +"
      = .ok (some (Op.seq (Op.seq (Op.const 2147483647) (Op.const 1)) (Op.bin .add)))
    ∧ Op.apply (Op.seq (Op.seq (Op.const 2147483647) (Op.const 1)) (Op.bin .add)) [] []
      = .ok ([-2147483648], [])
    ∧ ∀ (k : BinKind) (a b r : Int), binFn k a b = some r → INT_MIN ≤ r ∧ r ≤ INT_MAX := by
  refine ⟨rfl, rfl, ?_⟩
  intro k a b r h
  cases k <;> simp only [binFn, Option.some.injEq] at h
  · subst h; exact wrap32_range _
  · subst h; exact wrap32_range _
  · subst h; exact wrap32_range _
  · split at h
    · simp at h
    · rw [Option.some.injEq] at h
      subst h; exact wrap32_range _
  · split at h
    · simp at h
    · rw [Option.some.injEq] at h
      subst h; exact wrap32_range _

/-- C9 witness: the range bound at the wrapped sum of `INT_MAX` and 1. -/
theorem c9_witness :
    INT_MIN ≤ (-2147483648 : Int) ∧ (-2147483648 : Int) ≤ INT_MAX :=
  c9_overflow_wraparound.2.2 BinKind.add 2147483647 1 (-2147483648) (by decide)

/-- C10: frame property of the primitives.  Every non-Sequence operation
with declared argument count `k`, successfully applied to a stack with at
least `k` elements, leaves all elements below the top `k` unchanged in
value and order (the result is its declared number of new top values on
top of `s.drop k`). -/
theorem c10_frame_property :
    ∀ (op : Op) (s inp s2 inp2 : List Int), op.isSeq = false →
      op.argumentsCount ≤ s.length →
      op.apply s inp = .ok (s2, inp2) →
      s2.drop op.resultsCount = s.drop op.argumentsCount
      ∧ s2.length = op.resultsCount + (s.length - op.argumentsCount) := by
  intro op s inp s2 inp2 hseq hle h
  cases op with
  | const v =>
      simp only [Op.apply, Except.ok.injEq, Prod.mk.injEq] at h
      obtain ⟨h1, _⟩ := h
      subst h1
      simp
      omega
  | bin k =>
      rcases s with _ | ⟨b, _ | ⟨a, rest⟩⟩
      · simp [Op.apply] at h
      · simp [Op.apply] at h
      · rcases hb : binFn k a b with _ | r
        · simp [Op.apply, hb] at h
        · simp only [Op.apply, hb, Except.ok.injEq, Prod.mk.injEq] at h
          obtain ⟨h1, _⟩ := h
          subst h1
          simp
          omega
  | abs =>
      rcases s with _ | ⟨b, rest⟩
      · simp [Op.apply] at h
      · simp only [Op.apply, Except.ok.injEq, Prod.mk.injEq] at h
        obtain ⟨h1, _⟩ := h
        subst h1
        simp
        omega
  | input =>
      simp only [Op.apply, Except.ok.injEq, Prod.mk.injEq] at h
      obtain ⟨h1, _⟩ := h
      subst h1
      simp
      omega
  | dup =>
      rcases s with _ | ⟨a, rest⟩
      · simp [Op.apply] at h
      · simp only [Op.apply, Except.ok.injEq, Prod.mk.injEq] at h
        obtain ⟨h1, _⟩ := h
        subst h1
        simp
        omega
  | blank =>
      simp only [Op.apply, Except.ok.injEq, Prod.mk.injEq] at h
      obtain ⟨h1, _⟩ := h
      subst h1
      simp
  | seq l r => simp [Op.isSeq] at hseq

/-- C10 witness: `Duplicate` on the stack `[3, 9]` (top is 3): the element
9 below the consumed top is untouched. -/
theorem c10_witness :
    ([3, 3, 9] : List Int).drop Op.dup.resultsCount
      = ([3, 9] : List Int).drop Op.dup.argumentsCount
    ∧ ([3, 3, 9] : List Int).length
      = Op.dup.resultsCount + (([3, 9] : List Int).length - Op.dup.argumentsCount) :=
  c10_frame_property Op.dup [3, 9] [] [3, 3, 9] [] rfl (by decide) rfl

end Polka
